import Mathlib

/-!
Verification development for the PEP-9001 code formatter
(`bot/utils/blurple_formatter.py`): a shallow embedding of the module's
precedence model, renderer (`unparse`), statement packer (`indent`),
indentation inverter (`invert_indents`) and orchestration (`blurplify`),
together with theorems about them.

Modelling conventions:
* Python `str` is modelled as `List Char` (`Str`).
* The random source (`random.randrange`) is modelled as a stream
  `σ : Nat → Nat` together with an index of the next draw; each draw at
  index `i` yields `a + σ i % (b - a)`, exactly the range `randrange(a, b)`
  can produce, and advances the index.  Draws are threaded in rendering
  order.
* Machine integers do not occur; all counts are `Nat`.
* The embedded AST covers the node kinds the analysed properties are
  about; every node kind without an explicit rendering case in the source
  is represented by `Ast.other`, carrying the text the standard library
  default renderer (`ast.unparse`, an external dependency of the module)
  would produce for it.
-/

namespace BF

/-- Python strings are modelled as lists of characters. -/
abbrev Str := List Char

deriving instance DecidableEq for Except

/-- Node/operator kinds, one constructor per `ast` class the module's
precedence table (`precedences`, source lines 39-81) mentions, plus the
kinds of the other embedded nodes (which are absent from the table). -/
inductive Kind where
  | Name | Constant | JoinedStr | List | ListComp | Dict | DictComp
  | Set | SetComp | Tuple | GeneratorExp
  | Subscript | Call | Attribute
  | Await
  | Pow
  | UAdd | USub | Invert
  | Mult | MatMult | Div | FloorDiv | Mod
  | Add | Sub
  | LShift | RShift
  | BitAnd | BitXor | BitOr
  | In | NotIn | Is | IsNot | Lt | LtE | Gt | GtE | NotEq | Eq
  | Not | And | Or
  | IfExp | Lambda | NamedExpr
  | Starred | ModuleK | ExprK | PassK | BreakK | ContinueK
  | FunctionDefK | ArgumentsK | BoolOpK | BinOpK | UnaryOpK | CompareK
  | OtherK
  deriving DecidableEq, Repr

/-- The ordered precedence classes exactly as listed in the source
(lines 39-81), tightest-binding class first, before the `[::-1]`
inversion. -/
def precedences_classes : List (List Kind) :=
  [ [ .Name, .Constant, .JoinedStr, .List, .ListComp, .Dict, .DictComp,
      .Set, .SetComp, .Tuple, .GeneratorExp ],
    [ .Subscript, .Call, .Attribute ],
    [ .Await ],
    [ .Pow ],
    [ .UAdd, .USub, .Invert ],
    [ .Mult, .MatMult, .Div, .FloorDiv, .Mod ],
    [ .Add, .Sub ],
    [ .LShift, .RShift ],
    [ .BitAnd ],
    [ .BitXor ],
    [ .BitOr ],
    [ .In, .NotIn, .Is, .IsNot, .Lt, .LtE, .Gt, .GtE, .NotEq, .Eq ],
    [ .Not ],
    [ .And ],
    [ .Or ],
    [ .IfExp ],
    [ .Lambda ],
    [ .NamedExpr ] ]

/-- The inverted precedence mapping built by
`precedences = {op: i for i, ops in enumerate(precedences[::-1]) for op in ops}`
(source line 82): the rank of a kind is its class's index in the reversed
class list; kinds in no class are absent from the dictionary. -/
def precedences (k : Kind) : Option Nat :=
  precedences_classes.reverse.findIdx? (fun c => c.contains k)

/-- Right associative operators (source line 86): `r_assoc = {ast.Pow}`. -/
def r_assoc : List Kind := [ .Pow ]

/-- Operators for which the newline goes before (source line 108):
`nl_before_op = {ast.Add, ast.Mult}`. -/
def nl_before_op : List Kind := [ .Add, .Mult ]

/-- The operator-to-token table `op_strs` (source lines 7-36).  Kinds that
are not operators are never looked up; the total function returns `[]`
for them (the Python dict indexing would raise `KeyError`, which cannot
happen in the module). -/
def op_strs : Kind → Str
  | .Add => '+' :: []
  | .Mult => '*' :: []
  | .Sub => '-' :: []
  | .Div => '/' :: []
  | .FloorDiv => '/' :: '/' :: []
  | .Mod => '%' :: []
  | .Pow => '*' :: '*' :: []
  | .BitXor => '^' :: []
  | .BitOr => '|' :: []
  | .BitAnd => '&' :: []
  | .LShift => '<' :: '<' :: []
  | .RShift => '>' :: '>' :: []
  | .Invert => '~' :: []
  | .Not => 'n' :: 'o' :: 't' :: []
  | .UAdd => '+' :: []
  | .USub => '-' :: []
  | .Eq => '=' :: '=' :: []
  | .NotEq => '!' :: '=' :: []
  | .Lt => '<' :: []
  | .LtE => '<' :: '=' :: []
  | .Gt => '>' :: []
  | .GtE => '>' :: '=' :: []
  | .Is => 'i' :: 's' :: []
  | .IsNot => 'i' :: 's' :: ' ' :: 'n' :: 'o' :: 't' :: []
  | .In => 'i' :: 'n' :: []
  | .NotIn => 'n' :: 'o' :: 't' :: ' ' :: 'i' :: 'n' :: []
  | .And => 'a' :: 'n' :: 'd' :: []
  | .Or => 'o' :: 'r' :: []
  | _ => []

/-- The fixed line-length budget (source line 5): `MAX_LINE_LENGTH = 50`. -/
def MAX_LINE_LENGTH : Nat := 50

/-- One draw from the random source: models `randrange(a, b)` for
`a < b`, returning some value in `[a, b)` determined by the stream `σ`
at index `i`, together with the advanced index. -/
def randrange (a b : Nat) (σ : Nat → Nat) (i : Nat) : Nat × Nat :=
  (a + σ i % (b - a), i + 1)

/-- Randomly generate whitespace of length between the given bounds
(source lines 125-127): `" " * randrange(a, b)`. -/
def space (a b : Nat) (σ : Nat → Nat) (i : Nat) : Str × Nat :=
  let (k, i1) := randrange a b σ i
  (List.replicate k ' ', i1)

/-- Whitespace characters Python's `str.lstrip()` strips that can occur
in the module's inputs.  `\n`, `\r`, `\x0b` and `\x0c` are also line
breaks for `splitlines`, so only space and tab can survive inside a
line. -/
def isPyWs (c : Char) : Bool :=
  c = ' ' || c = '\t' || c = '\n' || c = '\r' || c = '\x0b' || c = '\x0c'

/-- Python `str.lstrip()`: drop all leading whitespace. -/
def lstripL (s : Str) : Str := s.dropWhile isPyWs

/-- Count the number of spaces at the beginning of the string
(source lines 130-132): `len(src) - len(src.lstrip())`.  Note that
`lstrip` strips every kind of whitespace, not only spaces. -/
def num_spaces (s : Str) : Nat := s.length - (lstripL s).length

/-- Characters `str.splitlines()` breaks lines at (restricted to those
the module can encounter; `\r\n` is treated as a single break by
`splitlinesAux`). -/
def isLineBreak (c : Char) : Bool :=
  c = '\n' || c = '\r' || c = '\x0b' || c = '\x0c'

/-- Worker for `splitlinesL`; `acc` holds the current line reversed.
A trailing line break produces no final empty line, exactly like
Python's `str.splitlines()`. -/
def splitlinesAux : Str → Str → List Str
  | [], acc => if acc = [] then [] else [acc.reverse]
  | '\r' :: '\n' :: rest, acc => acc.reverse :: splitlinesAux rest []
  | c :: rest, acc =>
    if isLineBreak c then acc.reverse :: splitlinesAux rest []
    else splitlinesAux rest (c :: acc)

/-- Python `str.splitlines()`. -/
def splitlinesL (s : Str) : List Str := splitlinesAux s []

/-- Maximum of a list of naturals (Python `max` over a non-empty
sequence; the empty case is handled by the caller, where `max` would
raise `ValueError`). -/
def listMax (l : List Nat) : Nat := l.foldl Nat.max 0

/-- Invert the indentation on each line of the given string
(source lines 135-144).  `max(num_spaces(line) for line in lines)`
raises `ValueError` when `src.splitlines()` is empty, i.e. when `src`
is the empty string; that exception is modelled by `Except.error ()`. -/
def invert_indents (src : Str) : Except Unit Str :=
  match splitlinesL src with
  | [] => Except.error ()
  | line0 :: rest =>
    let lines := line0 :: rest
    let max_spaces := listMax (lines.map num_spaces)
    Except.ok (List.intercalate ('\n' :: [])
      (lines.map (fun l =>
        List.replicate (max_spaces - num_spaces l) ' ' ++ lstripL l)))

/-- Last-character test from the packer (source line 166):
`curr_chunk[-1][-1] != ";"` is `lastIsSemi line = false` for the line
just appended (rendered statement lines are never empty, where the
Python expression would raise `IndexError`). -/
def lastIsSemi (l : Str) : Bool := l.getLast? == some ';'

/-- The semicolon-able branch of the packer loop (source lines 163-169)
over the lines of one rendered statement: each line is appended to the
chunk and the running length updated; when the running length exceeds
`MAX_LINE_LENGTH`, or the appended line does not end in `";"`, the whole
chunk (current line included) is flushed and the buffer restarts empty.
Returns the flushed chunks in order and the final `(chunk, len)`
state. -/
def packSem : List Str → List Str → Nat → (List (List Str) × List Str × Nat)
  | [], chunk, len => ([], chunk, len)
  | l :: ls, chunk, len =>
    let chunk1 := chunk ++ [l]
    let len1 := len + l.length
    if MAX_LINE_LENGTH < len1 ∨ lastIsSemi l = false then
      let r := packSem ls [] 0
      (chunk1 :: r.1, r.2)
    else
      packSem ls chunk1 len1

/-- Render the flushes produced by `packSem` into physical lines: each
flush is `n * " " + space().join(curr_chunk)` (source line 167), drawing
one random space string per flush as its uniform join separator. -/
def flushAll (n : Nat) (chunks : List (List Str)) (σ : Nat → Nat) (i : Nat) :
    List Str × Nat :=
  match chunks with
  | [] => ([], i)
  | c :: cs =>
    let (sep, i1) := space 1 3 σ i
    let (rest, i2) := flushAll n cs σ i1
    ((List.replicate n ' ' ++ List.intercalate sep c) :: rest, i2)

/-- Total length of the fragments accumulated in a packer chunk; the
packer's `curr_len` tracks exactly this quantity. -/
def sumLen (c : List Str) : Nat := (c.map List.length).sum

/-- The embedded syntax tree.  Constructors mirror the `ast` classes the
analysed properties involve; `constant` carries the node's
`col_offset`/`end_col_offset` into the original source (only non-string
constants are embedded, so its rendering is the source slice,
source line 408); `opK` wraps a bare operator node (such as `ast.Add()`)
as passed to `get_precedence`; `other` stands for any node kind without
an explicit rendering case, carrying the text the default renderer
`ast.unparse` produces for it. -/
inductive Ast where
  | name (id : Str)
  | constant (colOffset endColOffset : Nat)
  | boolOp (op : Kind) (values : List Ast)
  | binOp (left : Ast) (op : Kind) (right : Ast)
  | unaryOp (op : Kind) (operand : Ast)
  | compare (left : Ast) (op0 : Kind) (restOps : List Kind) (comparators : List Ast)
  | starred (value : Ast)
  | exprS (value : Ast)
  | passS
  | breakS
  | continueS
  | functionDef (nm : Str) (args : Ast) (body : List Ast)
      (decorator_list : List Ast) (returns : Option Ast)
  | argumentsNil
  | module (body : List Ast)
  | opK (k : Kind)
  | other (defaultRender : Str)
  deriving Repr

/-- The `ast` class of an embedded node, for the `precedences.get(type(node), 0)`
lookup. -/
def kindOf : Ast → Kind
  | .name _ => .Name
  | .constant _ _ => .Constant
  | .boolOp _ _ => .BoolOpK
  | .binOp _ _ _ => .BinOpK
  | .unaryOp _ _ => .UnaryOpK
  | .compare _ _ _ _ => .CompareK
  | .starred _ => .Starred
  | .exprS _ => .ExprK
  | .passS => .PassK
  | .breakS => .BreakK
  | .continueS => .ContinueK
  | .functionDef _ _ _ _ _ => .FunctionDefK
  | .argumentsNil => .ArgumentsK
  | .module _ => .ModuleK
  | .opK k => k
  | .other _ => .OtherK

/-- Whether the node's syntactic role is itself an operator application,
i.e. it is caught by the `isinstance` branches of `get_precedence`
before the generic `.get(type(node), 0)` lookup. -/
def isOpApp : Ast → Bool
  | .boolOp _ _ => true
  | .binOp _ _ _ => true
  | .unaryOp _ _ => true
  | .compare _ _ _ _ => true
  | _ => false

/-- Get the precedence of the given node (source lines 116-122).  For
`BoolOp`/`BinOp`/`UnaryOp` the rank of `type(node.op)` is returned, for
`Compare` the rank of `type(node.ops[0])` (the embedded `compare` keeps
its first operator separate, as the parser guarantees at least one);
otherwise `precedences.get(type(node), 0)`.  The dictionary indexing
used for the operator ranks is modelled by `getD 0` as well: it differs
only by raising for absent keys, and every operator kind is present in
the table. -/
def get_precedence (node : Ast) : Nat :=
  match node with
  | .boolOp op _ => (precedences op).getD 0
  | .binOp _ op _ => (precedences op).getD 0
  | .unaryOp op _ => (precedences op).getD 0
  | .compare _ op0 _ _ => (precedences op0).getD 0
  | n => (precedences (kindOf n)).getD 0

/-- Statements which can have a semicolon after them (source lines
89-105); restricted to the embedded statement kinds (`Expr`, `Pass`,
`Break`, `Continue` of the full tuple occur here). -/
def semicolon_able : Ast → Bool
  | .exprS _ => true
  | .passS => true
  | .breakS => true
  | .continueS => true
  | _ => false
/-!
The renderer.  The source's `unparse`/`parenthesize`/`indent` recursion
is embedded as a family of mutually recursive functions indexed by a
`fuel` argument on which the recursion is structural, so that every
definition is kernel-computable; each call consumes one unit of fuel,
and the un-fueled wrappers below supply `3 * sizeOf + 3` units, which
dominates the length of every call chain (each node on a chain accounts
for at most three calls, each list element for one more, and `sizeOf`
counts every constructor), so the fuel-exhaustion default is never
reached from the wrappers.
-/

set_option linter.unusedVariables false

mutual

/-- Convert the ast node to formatted Python source code
(source lines 243-820), restricted to the embedded node kinds.  `src` is
the module-level `source` string read by the `Constant` case; `nlAble`
is the `nl_able` parameter (passed around by the source but never read);
`σ`/`i` thread the random source. -/
def unparseF (fuel : Nat) (src : Str) (node : Ast) (nlAble : Bool)
    (σ : Nat → Nat) (i : Nat) : Str × Nat :=
  match fuel, node with
  | 0, _ => ([], i)
  | fuel + 1, node =>
    match node with
    | .name id => (id, i)
    | .constant lo hi => ((src.drop lo).take (hi - lo), i)
    | .boolOp op values =>
      let (sa, i1) := space 1 3 σ i
      let (sb, i2) := space 1 3 σ i1
      let sep := sa ++ op_strs op ++ sb
      let (parts, i3) := boolOpValuesF fuel src op values σ i2
      (List.intercalate sep parts, i3)
    | .binOp left op right =>
      let p := get_precedence (.opK op)
      let par_left : Bool :=
        if r_assoc.contains op = false then decide (get_precedence left < p)
        else decide (get_precedence left ≤ p)
      let par_right : Bool :=
        if r_assoc.contains op = false then decide (get_precedence right ≤ p)
        else decide (get_precedence right < p)
      let nl_before : Str := if nl_before_op.contains op then '\n' :: [] else []
      let nl_after : Str := if nl_before_op.contains op = false then '\n' :: [] else []
      let (s1, i1) := space 1 3 σ i
      let (lr, i2) :=
        if par_left then parenthesizeF fuel src left σ i1
        else unparseF fuel src left true σ i1
      let (s2, i3) := space 1 3 σ i2
      let (s3, i4) := space 1 3 σ i3
      let (rr, i5) :=
        if par_right then parenthesizeF fuel src right σ i4
        else unparseF fuel src right true σ i4
      let (s4, i6) := space 1 3 σ i5
      ('(' :: s1 ++ lr ++ s2 ++ nl_before ++ op_strs op ++ s3 ++ nl_after
        ++ rr ++ s4 ++ ')' :: [], i6)
    | .unaryOp op operand =>
      let p := get_precedence (.opK op)
      let par_op : Bool := decide (get_precedence operand < p)
      let (s1, i1) := space 1 3 σ i
      let (orend, i2) :=
        if par_op then parenthesizeF fuel src operand σ i1
        else unparseF fuel src operand false σ i1
      (op_strs op ++ s1 ++ orend, i2)
    | .compare left op0 restOps comparators =>
      let (lrend, i1) :=
        if decide (get_precedence left ≤ get_precedence (.opK op0)) then
          parenthesizeF fuel src left σ i
        else unparseF fuel src left false σ i
      let (sep, i2) := space 1 3 σ i1
      let (items, i3) := compareItemsF fuel src left (op0 :: restOps) comparators σ i2
      (lrend ++ List.intercalate sep items, i3)
    | .starred value =>
      let (s1, i1) := space 1 3 σ i
      let (pr, i2) := parenthesizeF fuel src value σ i1
      ('*' :: s1 ++ pr, i2)
    | .exprS value =>
      let (v, i1) := unparseF fuel src value false σ i
      let (s1, i2) := space 1 3 σ i1
      (v ++ s1 ++ ';' :: [], i2)
    | .passS =>
      let (s1, i1) := space 1 3 σ i
      ('p' :: 'a' :: 's' :: 's' :: s1 ++ ';' :: [], i1)
    | .breakS =>
      let (s1, i1) := space 1 3 σ i
      ('b' :: 'r' :: 'e' :: 'a' :: 'k' :: s1 ++ ';' :: [], i1)
    | .continueS =>
      let (s1, i1) := space 1 3 σ i
      ('c' :: 'o' :: 'n' :: 't' :: 'i' :: 'n' :: 'u' :: 'e' :: s1 ++ ';' :: [], i1)
    | .functionDef nm args body decorators returns =>
      let (decLines, i1) := decoratorListF fuel src decorators σ i
      let (s1, i2) := space 1 3 σ i1
      let (s2, i3) := space 1 3 σ i2
      let (s3, i4) := space 1 3 σ i3
      let (s4, i5) := space 1 3 σ i4
      let (argsR, i6) := unparseF fuel src args true σ i5
      let (s5, i7) := space 1 3 σ i6
      let (retPart, i8) :=
        match returns with
        | none => (([] : Str), i7)
        | some r =>
          let (sa, ia) := space 1 3 σ i7
          let (sb, ib) := space 1 3 σ ia
          let (rr, ic) := unparseF fuel src r false σ ib
          (sa ++ '-' :: '>' :: sb ++ rr, ic)
      let (s6, i9) := space 1 3 σ i8
      let header := 's' :: 'y' :: 'n' :: 'c' :: s1 ++ 'd' :: 'e' :: 'f' :: s2
        ++ nm ++ s3 ++ '(' :: s4 ++ argsR ++ s5 ++ ')' :: retPart ++ s6 ++ ':' :: []
      let (nDraw, i10) := randrange 2 5 σ i9
      let (bodyLines, i11) := indentStmtsF fuel src body nDraw σ i10 [] 0
      (List.intercalate ('\n' :: []) (decLines ++ header :: bodyLines), i11)
    | .argumentsNil => (([] : Str), i)
    | .module body =>
      let (ls, i1) := indentStmtsF fuel src body 0 σ i [] 0
      (List.intercalate ('\n' :: []) ls, i1)
    | .opK _ => (([] : Str), i)
    | .other d => (d, i)
termination_by structural fuel

/-- Wrap the un-parsed node in parentheses (source lines 147-149); the
source's `_nl_able` parameter is never read and is omitted. -/
def parenthesizeF (fuel : Nat) (src : Str) (node : Ast) (σ : Nat → Nat)
    (i : Nat) : Str × Nat :=
  match fuel with
  | 0 => ([], i)
  | fuel + 1 =>
    let (s1, i1) := space 1 3 σ i
    let (inner, i2) := unparseF fuel src node true σ i1
    let (s2, i3) := space 1 3 σ i2
    ('(' :: s1 ++ inner ++ s2 ++ ')' :: [], i3)
termination_by structural fuel

/-- The operand renderings of the `BoolOp` case (source lines 323-326):
each value is parenthesized exactly when its own precedence is `≤` the
chain operator's precedence. -/
def boolOpValuesF (fuel : Nat) (src : Str) (op : Kind) (values : List Ast)
    (σ : Nat → Nat) (i : Nat) : List Str × Nat :=
  match fuel, values with
  | 0, _ => ([], i)
  | _ + 1, [] => ([], i)
  | fuel + 1, v :: rest =>
    let (vr, i1) :=
      if decide (get_precedence v ≤ get_precedence (.opK op)) then
        parenthesizeF fuel src v σ i
      else unparseF fuel src v false σ i
    let (restR, i2) := boolOpValuesF fuel src op rest σ i1
    (vr :: restR, i2)
termination_by structural fuel

/-- The per-comparator fragments of the `Compare` case (source lines
396-400), iterating `zip(ops, comparators)`.  Note that the source's
parenthesization test reads `get_precedence(left)` — the rank of the
chain's first operand — not the comparator's own rank. -/
def compareItemsF (fuel : Nat) (src : Str) (left : Ast) (ops : List Kind)
    (comps : List Ast) (σ : Nat → Nat) (i : Nat) : List Str × Nat :=
  match fuel, ops, comps with
  | 0, _, _ => ([], i)
  | fuel + 1, op :: ops1, c :: cs1 =>
    let (sa, i1) := space 1 3 σ i
    let (sb, i2) := space 1 3 σ i1
    let (crend, i3) :=
      if decide (get_precedence left ≤ get_precedence (.opK op)) then
        parenthesizeF fuel src c σ i2
      else unparseF fuel src c false σ i2
    let (rest, i4) := compareItemsF fuel src left ops1 cs1 σ i3
    ((sa ++ op_strs op ++ sb ++ crend) :: rest, i4)
  | _ + 1, _, _ => ([], i)
termination_by structural fuel

/-- The statement packer `indent(nodes, n)` (source lines 152-177) as a
function from the remaining statements and the pending `(chunk, len)`
buffer to the emitted physical lines.  Semicolon-able statements go
through `packSem`; any other statement first flushes the pending buffer
(even when empty, yielding a line of just the indent), then emits its
own lines indented, and resets the buffer; a pending non-empty buffer is
flushed at the end. -/
def indentStmtsF (fuel : Nat) (src : Str) (nodes : List Ast) (n : Nat)
    (σ : Nat → Nat) (i : Nat) (chunk : List Str) (len : Nat) : List Str × Nat :=
  match fuel, nodes with
  | 0, _ => ([], i)
  | _ + 1, [] =>
    if chunk = [] then ([], i)
    else
      let (sep, i1) := space 1 3 σ i
      ((List.replicate n ' ' ++ List.intercalate sep chunk) :: [], i1)
  | fuel + 1, s :: rest =>
    let (txt, i1) := unparseF fuel src s false σ i
    let lines := splitlinesL txt
    if semicolon_able s then
      let r := packSem lines chunk len
      let (outs, i2) := flushAll n r.1 σ i1
      let (restOut, i3) := indentStmtsF fuel src rest n σ i2 r.2.1 r.2.2
      (outs ++ restOut, i3)
    else
      let (sep, i2) := space 1 3 σ i1
      let flushLine := List.replicate n ' ' ++ List.intercalate sep chunk
      let bLines := lines.map (fun l => List.replicate n ' ' ++ l)
      let (restOut, i3) := indentStmtsF fuel src rest n σ i2 [] 0
      (flushLine :: (bLines ++ restOut), i3)
termination_by structural fuel

/-- The decorator lines of a definition (source line 502):
`f"@{space()}{unparse(decorator)}"` for each decorator. -/
def decoratorListF (fuel : Nat) (src : Str) (ds : List Ast) (σ : Nat → Nat)
    (i : Nat) : List Str × Nat :=
  match fuel, ds with
  | 0, _ => ([], i)
  | _ + 1, [] => ([], i)
  | fuel + 1, d :: rest =>
    let (s1, i1) := space 1 3 σ i
    let (dr, i2) := unparseF fuel src d false σ i1
    let (restL, i3) := decoratorListF fuel src rest σ i2
    (('@' :: s1 ++ dr) :: restL, i3)
termination_by structural fuel

end

mutual

/-- Size of an embedded node: one per constructor plus the sizes of the
child nodes; used to bound the renderer's fuel. -/
def astSize : Ast → Nat
  | .name _ => 1
  | .constant _ _ => 1
  | .boolOp _ vs => 1 + astSizeList vs
  | .binOp l _ r => 1 + astSize l + astSize r
  | .unaryOp _ x => 1 + astSize x
  | .compare l _ _ cs => 1 + astSize l + astSizeList cs
  | .starred v => 1 + astSize v
  | .exprS v => 1 + astSize v
  | .passS => 1
  | .breakS => 1
  | .continueS => 1
  | .functionDef _ args body decs ret =>
    1 + astSize args + astSizeList body + astSizeList decs
      + (match ret with | none => 0 | some r => 1 + astSize r)
  | .argumentsNil => 1
  | .module body => 1 + astSizeList body
  | .opK _ => 1
  | .other _ => 1

/-- Size of a list of embedded nodes: one per cons cell plus one for
nil, plus the sizes of the elements. -/
def astSizeList : List Ast → Nat
  | [] => 1
  | a :: as => 1 + astSize a + astSizeList as

end

/-- `unparse` proper: the fueled renderer at a fuel exceeding the depth
of every possible call chain from `node`. -/
def unparse (src : Str) (node : Ast) (nlAble : Bool) (σ : Nat → Nat)
    (i : Nat) : Str × Nat :=
  unparseF (3 * astSize node + 3) src node nlAble σ i

/-- `parenthesize` proper (source lines 147-149). -/
def parenthesize (src : Str) (node : Ast) (σ : Nat → Nat) (i : Nat) :
    Str × Nat :=
  parenthesizeF (3 * astSize node + 3) src node σ i

/-- The statement packer `indent(nodes, n)` proper (source lines
152-177), starting from an empty pending buffer. -/
def indentStmts (src : Str) (nodes : List Ast) (n : Nat) (σ : Nat → Nat)
    (i : Nat) (chunk : List Str) (len : Nat) : List Str × Nat :=
  indentStmtsF (3 * astSizeList nodes + 3) src nodes n σ i chunk len

/-- Python exceptions `blurplify` can surface: the parser's own
`SyntaxError` (carrying its diagnostic unchanged) and the `ValueError`
raised by `max()` inside `invert_indents` on an empty line list. -/
inductive PyErr where
  | syntaxError (diagnostic : Str)
  | valueError
  deriving Repr, DecidableEq

/-- The module-level mutable state of `blurple_formatter`: the `source`
global written by `blurplify` (source line 825-826) and the precedence
table built at import time (a Python dict, mutable in principle). -/
structure PyGlobals where
  source : Str
  precedence_table : Kind → Option Nat

/-- The module state as initialized at import time. -/
def initial_globals : PyGlobals :=
  { source := [], precedence_table := precedences }

/-- Format the given source code in accordance with PEP 9001
(source lines 823-828).  The standard parser `ast.parse` is an external
dependency and is passed in as `parse`; the function first assigns the
module-level `source` global, then parses (a `SyntaxError` propagates
unchanged), renders the tree, inverts the indentation (whose
`ValueError` on an empty rendering propagates) and prepends the fixed
encoding-declaration comment.  Returns the result or exception together
with the module state after the call. -/
def blurplify (parse : Str → Except Str Ast) (src : Str) (g : PyGlobals)
    (σ : Nat → Nat) : Except PyErr Str × PyGlobals :=
  let g1 : PyGlobals := { g with source := src }
  match parse src with
  | Except.error e => (Except.error (PyErr.syntaxError e), g1)
  | Except.ok t =>
    let rendered := (unparse src t false σ 0).1
    match invert_indents rendered with
    | Except.error _ => (Except.error PyErr.valueError, g1)
    | Except.ok inv =>
      (Except.ok (( "# coding=UTF-8-NOBOM\n" ).toList ++ inv), g1)

/-- The `BinOp` rendering restated from the specification's words
(§4.2): with operator rank `p`, "if the operator is left-associative:
parenthesize the left operand when `pl < p`; parenthesize the right
operand when `pr ≤ p`; if the operator is right-associative:
parenthesize the left operand when `pl ≤ p`; parenthesize the right
operand when `pr < p`" — everything else (including the fuel passed to
the operand renderings) identical to the `BinOp` case of `unparseF`.
Used to state claim C5 as a refinement. -/
def bin_op_render_claim (fuel : Nat) (src : Str) (left : Ast) (op : Kind)
    (right : Ast) (σ : Nat → Nat) (i : Nat) : Str × Nat :=
  let p := get_precedence (.opK op)
  let par_left : Bool :=
    if r_assoc.contains op then decide (get_precedence left ≤ p)
    else decide (get_precedence left < p)
  let par_right : Bool :=
    if r_assoc.contains op then decide (get_precedence right < p)
    else decide (get_precedence right ≤ p)
  let nl_before : Str := if nl_before_op.contains op then '\n' :: [] else []
  let nl_after : Str := if nl_before_op.contains op = false then '\n' :: [] else []
  let (s1, i1) := space 1 3 σ i
  let (lr, i2) :=
    if par_left then parenthesizeF fuel src left σ i1
    else unparseF fuel src left true σ i1
  let (s2, i3) := space 1 3 σ i2
  let (s3, i4) := space 1 3 σ i3
  let (rr, i5) :=
    if par_right then parenthesizeF fuel src right σ i4
    else unparseF fuel src right true σ i4
  let (s4, i6) := space 1 3 σ i5
  ('(' :: s1 ++ lr ++ s2 ++ nl_before ++ op_strs op ++ s3 ++ nl_after
    ++ rr ++ s4 ++ ')' :: [], i6)

/-- The indentation inverter restated from claim C7's words:
`count` is the line's leading-SPACE count (U+0020 only), each line is
rewritten to `M - count` spaces followed by the remainder of the line
after those leading spaces.  Used to compare against the source's
`invert_indents`, whose `num_spaces` counts every leading whitespace
character. -/
def invert_indents_claim (src : Str) : Str :=
  let countSp : Str → Nat := fun l => (l.takeWhile (fun c => c == ' ')).length
  let lines := splitlinesL src
  let m := listMax (lines.map countSp)
  List.intercalate ('\n' :: [])
    (lines.map (fun l => List.replicate (m - countSp l) ' ' ++ l.drop (countSp l)))

/-- The all-zero random stream: every draw takes the least value of its
range, so `space` always produces a single blank and the body indent is
two. -/
def σ0 : Nat → Nat := fun _ => 0

/-!
Theorems.  Shared helper lemmas come first; each claim's theorem (and,
where required, its witness or counterexample) follows.
-/

/-- Appending one fragment to a chunk adds its length to the chunk's
total fragment length. -/
theorem sumLen_concat (c : List Str) (l : Str) :
    sumLen (c ++ [l]) = sumLen c + l.length := by
  simp [sumLen]

/-- `dropWhile` swallows a prefix of characters satisfying the
predicate. -/
theorem dropWhile_replicate_space_append (k : Nat) (t : Str) :
    List.dropWhile isPyWs (List.replicate k ' ' ++ t) = List.dropWhile isPyWs t := by
  induction k with
  | zero => simp
  | succ k ih => simp [List.replicate_succ, List.dropWhile_cons, isPyWs, ih]

/-- Stripping leading whitespace twice is the same as stripping once. -/
theorem lstripL_idem (l : Str) : lstripL (lstripL l) = lstripL l := by
  induction l with
  | nil => rfl
  | cons a l ih =>
    by_cases ha : isPyWs a
    · simpa [lstripL, List.dropWhile_cons, ha] using ih
    · simp [lstripL, List.dropWhile_cons, ha]

/-- Leading-whitespace count of an inverted line: `k` fresh spaces in
front of an already-stripped remainder count exactly `k`. -/
theorem num_spaces_replicate_lstrip (k : Nat) (l : Str) :
    num_spaces (List.replicate k ' ' ++ lstripL l) = k := by
  have h1 : lstripL (List.replicate k ' ' ++ lstripL l) = lstripL l := by
    unfold lstripL
    rw [dropWhile_replicate_space_append]
    simpa [lstripL] using lstripL_idem l
  simp [num_spaces, h1]

/-- The fold computing `listMax` is monotone in its seed and bounds
every element of the list. -/
theorem le_listMax_of_mem {x : Nat} {l : List Nat} (hx : x ∈ l) :
    x ≤ listMax l := by
  have key : ∀ (l : List Nat) (a : Nat), (∀ y ∈ l, y ≤ l.foldl Nat.max a)
      ∧ a ≤ l.foldl Nat.max a := by
    intro l
    induction l with
    | nil => intro a; exact ⟨by simp, Nat.le_refl a⟩
    | cons b l ih =>
      intro a
      refine ⟨?_, ?_⟩
      · intro y hy
        rcases List.mem_cons.1 hy with rfl | hy
        · exact Nat.le_trans (Nat.le_max_right a y) (ih (Nat.max a y)).2
        · exact (ih (Nat.max a b)).1 y hy
      · exact Nat.le_trans (Nat.le_max_left a b) (ih (Nat.max a b)).2
  exact (key l 0).1 x hx

/-- `splitlines` of a non-empty string is a non-empty line list. -/
theorem splitlinesAux_ne_nil :
    ∀ (cs acc : Str), cs ≠ [] ∨ acc ≠ [] → splitlinesAux cs acc ≠ [] := by
  intro cs acc
  induction cs, acc using splitlinesAux.induct with
  | case1 =>
    intro h
    rcases h with h | h <;> exact absurd rfl h
  | case2 acc hacc =>
    intro _
    rw [splitlinesAux.eq_1]
    simp [hacc]
  | case3 rest acc ih =>
    intro _
    rw [splitlinesAux.eq_2]
    simp
  | case4 c rest acc hne hbr ih =>
    intro _
    rw [splitlinesAux.eq_3 _ _ _ hne]
    simp [hbr]
  | case5 c rest acc hne hbr ih =>
    intro _
    rw [splitlinesAux.eq_3 _ _ _ hne, if_neg hbr]
    exact ih (Or.inr (by simp))

/-- `splitlines` of a non-empty string is non-empty. -/
theorem splitlinesL_ne_nil {src : Str} (h : src ≠ []) : splitlinesL src ≠ [] :=
  splitlinesAux_ne_nil src [] (Or.inl h)

/-- C6: `get_precedence` returns, for each operator-application node
(boolean chain, binary operation, unary operation, comparison chain),
the table rank of the node's operator (for a comparison chain, of its
first operator), not a rank of the compound node's own kind; every node
kind absent from the table gets the default rank `0`, the lowest rank of
the scale (ranks are naturals and the loosest class, `NamedExpr`, sits
at `0`); and in the inverted table every kind of an earlier
(tighter-binding) source class has a strictly higher rank than every
kind of a later (looser-binding) class. -/
theorem c6_get_precedence_operator_rank :
    (∀ (op : Kind) (values : List Ast),
        get_precedence (Ast.boolOp op values) = (precedences op).getD 0)
  ∧ (∀ (l : Ast) (op : Kind) (r : Ast),
        get_precedence (Ast.binOp l op r) = (precedences op).getD 0)
  ∧ (∀ (op : Kind) (x : Ast),
        get_precedence (Ast.unaryOp op x) = (precedences op).getD 0)
  ∧ (∀ (l : Ast) (op0 : Kind) (ops : List Kind) (cs : List Ast),
        get_precedence (Ast.compare l op0 ops cs) = (precedences op0).getD 0)
  ∧ (∀ n : Ast, isOpApp n = false → precedences (kindOf n) = none →
        get_precedence n = 0)
  ∧ (precedences Kind.NamedExpr = some 0)
  ∧ (∀ i : Nat, i < 18 → ∀ j : Nat, j < 18 → i < j →
      ∀ k1 ∈ precedences_classes.getD i [], ∀ k2 ∈ precedences_classes.getD j [],
        (precedences k2).getD 0 < (precedences k1).getD 0) := by
  refine ⟨fun _ _ => rfl, fun _ _ _ => rfl, fun _ _ => rfl, fun _ _ _ _ => rfl,
    ?_, by decide, by decide⟩
  intro n h1 h2
  cases n <;> simp_all [get_precedence, kindOf, isOpApp]

/-- Witness for C6: the tighter-binding `Pow` (source class 3) outranks
the looser `Add` (source class 6). -/
theorem c6_get_precedence_operator_rank_witness :
    (precedences Kind.Add).getD 0 < (precedences Kind.Pow).getD 0 :=
  c6_get_precedence_operator_rank.2.2.2.2.2.2 3 (by decide) 6 (by decide)
    (by decide) Kind.Pow (by decide) Kind.Add (by decide)

/-- C5: the `BinOp` rendering of the code coincides, for every operator
and operands, with the rendering phrased as the claim states it — the
left operand is parenthesized precisely when `pl < p` (left-associative)
resp. `pl ≤ p` (right-associative), and the right operand precisely when
`pr ≤ p` resp. `pr < p`; stated for one unfolding of the fueled renderer
at every fuel, and for `unparse` itself. -/
theorem c5_binop_parenthesization :
    (∀ (fuel : Nat) (src : Str) (left : Ast) (op : Kind) (right : Ast)
        (nl : Bool) (σ : Nat → Nat) (i : Nat),
        unparseF (fuel + 1) src (Ast.binOp left op right) nl σ i
          = bin_op_render_claim fuel src left op right σ i)
  ∧ ∀ (src : Str) (left : Ast) (op : Kind) (right : Ast) (nl : Bool)
      (σ : Nat → Nat) (i : Nat),
      unparse src (Ast.binOp left op right) nl σ i
        = bin_op_render_claim (3 * astSize (Ast.binOp left op right) + 2)
            src left op right σ i := by
  have key : ∀ (fuel : Nat) (src : Str) (left : Ast) (op : Kind) (right : Ast)
      (nl : Bool) (σ : Nat → Nat) (i : Nat),
      unparseF (fuel + 1) src (Ast.binOp left op right) nl σ i
        = bin_op_render_claim fuel src left op right σ i := by
    intro fuel src left op right nl σ i
    cases h : r_assoc.contains op <;>
      simp [unparseF, bin_op_render_claim, h]
  exact ⟨key, fun src left op right nl σ i =>
    key (3 * astSize (Ast.binOp left op right) + 2) src left op right nl σ i⟩

/-- C9: a node of a kind without an explicit rendering case (embedded as
`Ast.other`, carrying the default renderer's output for that one
subtree) is rendered by returning that default text — the dispatch falls
through to `ast.unparse(node)` (source line 820) and never fails. -/
theorem c9_fallback_default_render :
    ∀ (src d : Str) (nl : Bool) (σ : Nat → Nat) (i : Nat),
      unparse src (Ast.other d) nl σ i = (d, i) :=
  fun _ _ _ _ _ => rfl

/-- C1, evaluated at the failing input (the tree of `a < (b or c)`):
the comparator `b or c` has rank at most the chain operator `<`'s rank,
so per the claim it must be parenthesized, yet the rendered output
(under the all-zeros random stream) is `a < b or c` with no parentheses
around it — the code tests the rank of `left`, not of the comparator. -/
theorem c1_compare_tests_left_rank :
    (unparse [] (Ast.compare (Ast.name (( "a" ).toList)) Kind.Lt []
        [Ast.boolOp Kind.Or [Ast.name (( "b" ).toList), Ast.name (( "c" ).toList)]])
        false σ0 0).1 = ( "a < b or c" ).toList
  ∧ get_precedence (Ast.boolOp Kind.Or
        [Ast.name (( "b" ).toList), Ast.name (( "c" ).toList)])
      ≤ get_precedence (Ast.opK Kind.Lt) := by
  decide

/-- C3, evaluated at the rendering of `def f(): pass`: the
`FunctionDef` case emits a header beginning `sync def` (source line
503), which is not parseable Python, so the formatted output of any
function definition cannot be re-parsed. -/
theorem c3_functiondef_renders_sync :
    (unparse [] (Ast.functionDef (( "f" ).toList) Ast.argumentsNil [Ast.passS]
        [] none) false σ0 0).1
      = ( "sync def f (  ) :\n  pass ;" ).toList
  ∧ (( "sync def f (  ) :\n  pass ;" ).toList).take 9 = ( "sync def " ).toList := by
  decide

/-- Counterexample to C2 as stated: packing two simple statements whose
rendered lengths (32 each) are both within the 50-unit budget produces a
single physical line of length 65 holding both statements — the packer
flushes the buffer only after appending the statement that overflows it,
so the flushed line exceeds the budget while holding two statements. -/
theorem c2_counterexample :
    (indentStmts [] [Ast.exprS (Ast.name (List.replicate 30 'a')),
        Ast.exprS (Ast.name (List.replicate 30 'b'))] 0 σ0 0 [] 0).1
      = [List.replicate 30 'a' ++ ( " ; " ).toList
          ++ List.replicate 30 'b' ++ ( " ;" ).toList]
  ∧ MAX_LINE_LENGTH < (List.replicate 30 'a' ++ ( " ; " ).toList
      ++ List.replicate 30 'b' ++ ( " ;" ).toList).length
  ∧ (unparse [] (Ast.exprS (Ast.name (List.replicate 30 'a'))) false σ0 0).1.length
      ≤ MAX_LINE_LENGTH
  ∧ (unparse [] (Ast.exprS (Ast.name (List.replicate 30 'b'))) false σ0 0).1.length
      ≤ MAX_LINE_LENGTH := by
  decide

/-- C2 as amended: when an appended line overflows the budget (or does
not end in a semicolon) the whole buffer including that line is flushed
and the buffer restarts empty; consequently, in every chunk the packer
flushes, the fragments before the last total at most the budget (a
flushed line overflows only by its final fragment), and the leftover
buffer at the end of the scan is always within the budget. -/
theorem c2_amended_packer_budget :
    ∀ (lines chunk : List Str) (len : Nat),
      len = sumLen chunk → len ≤ MAX_LINE_LENGTH →
      (∀ c ∈ (packSem lines chunk len).1, sumLen c.dropLast ≤ MAX_LINE_LENGTH)
      ∧ sumLen (packSem lines chunk len).2.1 ≤ MAX_LINE_LENGTH
      ∧ (packSem lines chunk len).2.2 = sumLen (packSem lines chunk len).2.1 := by
  intro lines
  induction lines with
  | nil =>
    intro chunk len h1 h2
    refine ⟨by simp [packSem], ?_, ?_⟩
    · simpa [packSem, ← h1] using h2
    · simp [packSem, h1]
  | cons l ls ih =>
    intro chunk len h1 h2
    by_cases hc : MAX_LINE_LENGTH < len + l.length ∨ lastIsSemi l = false
    · have hrec := ih [] 0 (by simp [sumLen]) (by simp [MAX_LINE_LENGTH])
      refine ⟨?_, ?_, ?_⟩
      · intro c hcmem
        simp only [packSem, if_pos hc] at hcmem
        rcases List.mem_cons.1 hcmem with rfl | hcmem
        · rw [List.dropLast_concat]
          exact h1 ▸ h2
        · exact hrec.1 c hcmem
      · simpa [packSem, if_pos hc] using hrec.2.1
      · simpa [packSem, if_pos hc] using hrec.2.2
    · have hlen : len + l.length ≤ MAX_LINE_LENGTH := by
        rcases Nat.lt_or_ge MAX_LINE_LENGTH (len + l.length) with h | h
        · exact absurd (Or.inl h) hc
        · exact h
      have hrec := ih (chunk ++ [l]) (len + l.length)
        (by rw [h1, sumLen_concat]) hlen
      refine ⟨?_, ?_, ?_⟩
      · intro c hcmem
        simp only [packSem, if_neg hc] at hcmem
        exact hrec.1 c hcmem
      · simpa [packSem, if_neg hc] using hrec.2.1
      · simpa [packSem, if_neg hc] using hrec.2.2

/-- Witness for C2's amended theorem at a concrete run: scanning the
single line `x ;` from an empty buffer leaves a leftover buffer within
the budget. -/
theorem c2_amended_packer_budget_witness :
    sumLen (packSem [( "x ;" ).toList] [] 0).2.1 ≤ MAX_LINE_LENGTH :=
  (c2_amended_packer_budget [( "x ;" ).toList] [] 0 (by decide) (by decide)).2.1

/-- Counterexample to C7 as stated: on the one-line input `" \tx"` (a
space, a tab, `x`) the claim prescribes counting one leading space, so
the line becomes `M - 1 = 0` spaces followed by the unchanged remainder
`"\tx"`; the code counts both whitespace characters via `lstrip` and
produces `"x"`, rewriting the tab away. -/
theorem c7_counterexample :
    invert_indents (( " \tx" ).toList) = Except.ok (( "x" ).toList)
  ∧ invert_indents_claim (( " \tx" ).toList) = ( "\tx" ).toList
  ∧ Except.ok (invert_indents_claim (( " \tx" ).toList))
      ≠ invert_indents (( " \tx" ).toList) := by
  decide

/-- C7 as amended: for every non-empty input, each line is rewritten to
`M - count` spaces (where `count` is the line's leading-whitespace
count — spaces and tabs alike — and `M` the maximum such count) followed
by the line with its leading whitespace removed; the rewritten line's
leading-whitespace count is exactly `M - count`, so two lines with
distinct counts still have distinct counts afterwards, in reversed
order. -/
theorem c7_amended_invert_indents (src : Str) (h : src ≠ []) :
    invert_indents src = Except.ok (List.intercalate ('\n' :: [])
        ((splitlinesL src).map (fun l =>
          List.replicate (listMax ((splitlinesL src).map num_spaces) - num_spaces l) ' '
            ++ lstripL l)))
  ∧ (∀ l ∈ splitlinesL src,
      num_spaces (List.replicate
            (listMax ((splitlinesL src).map num_spaces) - num_spaces l) ' '
          ++ lstripL l)
        = listMax ((splitlinesL src).map num_spaces) - num_spaces l)
  ∧ ∀ (i j : Nat) (hi : i < (splitlinesL src).length)
      (hj : j < (splitlinesL src).length),
      num_spaces ((splitlinesL src).get ⟨i, hi⟩)
          < num_spaces ((splitlinesL src).get ⟨j, hj⟩) →
      listMax ((splitlinesL src).map num_spaces)
          - num_spaces ((splitlinesL src).get ⟨j, hj⟩)
        < listMax ((splitlinesL src).map num_spaces)
          - num_spaces ((splitlinesL src).get ⟨i, hi⟩) := by
  refine ⟨?_, ?_, ?_⟩
  · rw [invert_indents]
    cases hls : splitlinesL src with
    | nil => exact absurd hls (splitlinesL_ne_nil h)
    | cons a as => simp only [hls]
  · intro l _
    exact num_spaces_replicate_lstrip _ l
  · intro i j hi hj hlt
    have hjm : num_spaces ((splitlinesL src).get ⟨j, hj⟩)
        ≤ listMax ((splitlinesL src).map num_spaces) :=
      le_listMax_of_mem (List.mem_map_of_mem num_spaces (List.get_mem _ _ _))
    omega

/-- Witness for C7's amended theorem at the input `"a\n  b\n c"` (three
lines with leading-whitespace counts 0, 2, 1): the inverter produces
`"  a\nb\n c"`, and the counts of the first two lines (0 < 2) come out
reversed (0 < 2 again, but swapped between the lines). -/
theorem c7_amended_invert_indents_witness :
    invert_indents (( "a\n  b\n c" ).toList) = Except.ok (( "  a\nb\n c" ).toList)
  ∧ listMax ((splitlinesL (( "a\n  b\n c" ).toList)).map num_spaces)
        - num_spaces ((splitlinesL (( "a\n  b\n c" ).toList)).get
            ⟨1, by decide⟩)
      < listMax ((splitlinesL (( "a\n  b\n c" ).toList)).map num_spaces)
        - num_spaces ((splitlinesL (( "a\n  b\n c" ).toList)).get
            ⟨0, by decide⟩) := by
  have hmain := c7_amended_invert_indents (( "a\n  b\n c" ).toList) (by decide)
  refine ⟨hmain.1.trans (by decide), ?_⟩
  exact hmain.2.2 0 1 (by decide) (by decide) (by decide)

/-- Counterexample to C4 as stated: a formatting call writes the
process-wide `source` variable (source lines 825-826), so the module
state after a call differs from the state before it. -/
theorem c4_counterexample :
    (blurplify (fun _ => Except.error (( "boom" ).toList)) (( "pass" ).toList)
        initial_globals σ0).2 ≠ initial_globals := by
  intro hEq
  have hs := congrArg PyGlobals.source hEq
  exact absurd hs (by decide)

/-- C4 as amended: apart from draws from the random source, the only
process-wide datum a formatting call modifies is the module-level
`source` variable, which `blurplify` assigns the call's input before
parsing; in particular the precedence table is never mutated (the
post-call state is the pre-call state with only `source` replaced). -/
theorem c4_amended_only_source_global (parse : Str → Except Str Ast) (src : Str)
    (g : PyGlobals) (σ : Nat → Nat) :
    (blurplify parse src g σ).2 = { g with source := src } := by
  unfold blurplify
  cases hp : parse src with
  | error e => rfl
  | ok t =>
    cases hinv : invert_indents (unparse src t false σ 0).1 with
    | error e => simp [hinv]
    | ok inv => simp [hinv]

/-- C8: `blurplify` first parses; a parse failure propagates the
parser's own diagnostic unchanged and produces no output text, and on a
successful parse any returned string is exactly the fixed one-line
encoding-declaration comment followed by the indentation-inverted
rendering of the parsed tree. -/
theorem c8_orchestration (parse : Str → Except Str Ast) (src : Str)
    (g : PyGlobals) (σ : Nat → Nat) :
    (∀ e, parse src = Except.error e →
        (blurplify parse src g σ).1 = Except.error (PyErr.syntaxError e))
  ∧ ∀ t out, parse src = Except.ok t →
      (blurplify parse src g σ).1 = Except.ok out →
      ∀ inv, invert_indents (unparse src t false σ 0).1 = Except.ok inv →
        out = ( "# coding=UTF-8-NOBOM\n" ).toList ++ inv := by
  constructor
  · intro e he
    simp [blurplify, he]
  · intro t out ht hout inv hinv
    simp [blurplify, ht, hinv] at hout
    exact hout.symm

/-- Witness for C8 at concrete parsers: a failing parse surfaces its
diagnostic as the syntax failure, and a successful parse of `pass`
returns exactly the declaration comment plus the inverted rendering. -/
theorem c8_orchestration_witness :
    (blurplify (fun _ => Except.error (( "bad" ).toList)) [] initial_globals σ0).1
      = Except.error (PyErr.syntaxError (( "bad" ).toList))
  ∧ ( "# coding=UTF-8-NOBOM\npass ;" ).toList
      = ( "# coding=UTF-8-NOBOM\n" ).toList ++ ( "pass ;" ).toList := by
  constructor
  · exact (c8_orchestration (fun _ => Except.error (( "bad" ).toList)) []
      initial_globals σ0).1 (( "bad" ).toList) rfl
  · exact (c8_orchestration (fun _ => Except.ok (Ast.module [Ast.passS]))
      (( "pass" ).toList) initial_globals σ0).2 (Ast.module [Ast.passS])
      (( "# coding=UTF-8-NOBOM\npass ;" ).toList) rfl (by decide)
      (( "pass ;" ).toList) (by decide)

/-- C10: when the parser accepts the input but the rendered body is the
empty string (for example the empty source, or a source of only
comments, both parsing to a module with an empty body), `blurplify`
raises `ValueError` — `invert_indents` takes `max()` over the empty line
list — instead of returning output or a syntax failure. -/
theorem c10_empty_render_valueerror (parse : Str → Except Str Ast) (src : Str)
    (g : PyGlobals) (σ : Nat → Nat) (t : Ast)
    (hp : parse src = Except.ok t)
    (hr : (unparse src t false σ 0).1 = []) :
    (blurplify parse src g σ).1 = Except.error PyErr.valueError := by
  simp [blurplify, hp, hr, invert_indents, splitlinesL, splitlinesAux]

/-- Witness for C10: the empty source, parsed to a module with empty
body, makes `blurplify` raise `ValueError`. -/
theorem c10_empty_render_valueerror_witness :
    (blurplify (fun _ => Except.ok (Ast.module [])) [] initial_globals σ0).1
      = Except.error PyErr.valueError :=
  c10_empty_render_valueerror (fun _ => Except.ok (Ast.module [])) []
    initial_globals σ0 (Ast.module []) rfl (by decide)

end BF
